import Mathlib

/-!
Shallow embedding of the go.model-orchestrator control plane.

Each definition below is translated from the Go source of the repository
(`internal/discovery`, `internal/mcp`, `internal/mediator`, `internal/types`,
the API adapter and the HTTP-methods tool server).  Strings are modelled as
Lean `String` (lists of characters); Go's Unicode-aware case mapping and
whitespace predicate are modelled on their ASCII behaviour, which is the
behaviour exercised by every value the program manipulates.  Maps are
modelled as association lists with first-match lookup, network calls as
explicit oracles passed in as function arguments.
-/

/-- Model of Go `unicode.IsSpace` restricted to the ASCII whitespace that
`Char.isWhitespace` recognises. -/
def goIsSpace (c : Char) : Bool := c.isWhitespace

/-- Model of Go `strings.TrimSpace` on the character list: drop whitespace
from the left, then from the right (via reversal). -/
def trimSpaceList (l : List Char) : List Char :=
  ((l.dropWhile goIsSpace).reverse.dropWhile goIsSpace).reverse

/-- Model of Go `strings.TrimSpace`. -/
def trimSpace (s : String) : String := ⟨trimSpaceList s.data⟩

/-- Model of Go `unicode.ToLower` on its ASCII range: `'A'..'Z'` map to
`'a'..'z'`, every other character is fixed. -/
def toLowerChar (c : Char) : Char :=
  if 65 ≤ c.toNat ∧ c.toNat ≤ 90 then Char.ofNat (c.toNat + 32) else c

/-- Model of Go `unicode.ToUpper` on its ASCII range. -/
def toUpperChar (c : Char) : Char :=
  if 97 ≤ c.toNat ∧ c.toNat ≤ 122 then Char.ofNat (c.toNat - 32) else c

/-- Model of Go `strings.ToLower`. -/
def lowerStr (s : String) : String := ⟨s.data.map toLowerChar⟩

/-- Model of Go `strings.ToUpper`. -/
def upperStr (s : String) : String := ⟨s.data.map toUpperChar⟩

/-- One digit of a decimal numeral, as a character (`0 ≤ d ≤ 9` in use). -/
def digitToChar (d : Nat) : Char := Char.ofNat (48 + d)

/-- Big-endian decimal digits of `n`, computed with explicit fuel so the
definition is structural (the fuel `n` itself always suffices). -/
def decAux : Nat → Nat → List Char
  | 0, _ => []
  | fuel + 1, n => if n = 0 then [] else decAux fuel (n / 10) ++ [digitToChar (n % 10)]

/-- Model of Go's `%d` / `fmt.Sprint` rendering of a non-negative integer. -/
def decRepr (n : Nat) : String := if n = 0 then "0" else ⟨decAux n n⟩

/-- The single-character replacements applied by the mediator's `slugify`
(`strings.NewReplacer(" ", "_", "-", "_", ".", "_", "/", "_", ":", "_")`). -/
def slugReplaceChar (c : Char) : Char :=
  if c = ' ' ∨ c = '-' ∨ c = '.' ∨ c = '/' ∨ c = ':' then '_' else c

/-- `slugify` from `internal/mediator/mediator.go` on the character list:
trim, lowercase, map the empty result to `"tool"`, then apply the
replacer. -/
def slugifyList (l : List Char) : List Char :=
  let t := (trimSpaceList l).map toLowerChar
  if t = [] then ['t', 'o', 'o', 'l'] else t.map slugReplaceChar

/-- `slugify` from `internal/mediator/mediator.go`. -/
def slugify (s : String) : String := ⟨slugifyList s.data⟩

/-! ### Discovery registry model (`internal/discovery/discovery.go`) -/

/-- Known server kinds advertised via TXT records. -/
def serverKindTool : String := "tool"

/-- The agent-wrapper server kind. -/
def serverKindAgentWrapper : String := "agent-wrapper"

/-- The orchestrator server kind. -/
def serverKindOrchestrator : String := "orchestrator"

/-- The (declared but never produced) unknown server kind. -/
def serverKindUnknown : String := "unknown"

/-- A Go `map[string]string` that may be `nil`: `none` is the nil map, and a
present map is an association list with first-match lookup. -/
def TxtMap : Type := Option (List (String × String))

/-- Indexing a possibly-nil Go string map: absent keys yield `""`. -/
def txtGet (t : TxtMap) (k : String) : String :=
  match t with
  | none => ""
  | some l =>
    match l.find? (fun p => p.1 == k) with
    | some p => p.2
    | none => ""

/-- The `v, ok := m[k]` form: whether the key is present. -/
def txtHas (t : TxtMap) (k : String) : Bool :=
  match t with
  | none => false
  | some l => (l.find? (fun p => p.1 == k)).isSome

/-- `parseTxtRecord` from `discovery.go` on the character list: scan for the
first `'='`, return the parts before and after it, `none` when absent. -/
def parseTxtList : List Char → Option (List Char × List Char)
  | [] => none
  | c :: rest =>
    if c = '=' then some ([], rest)
    else (parseTxtList rest).map (fun p => (c :: p.1, p.2))

/-- `parseTxtRecord` from `discovery.go`: split a TXT record at the first
`'='`; records without `'='` are dropped (modelled as `none`). -/
def parseTxtRecord (s : String) : Option (String × String) :=
  (parseTxtList s.data).map (fun p => (⟨p.1⟩, ⟨p.2⟩))

/-- The wire encoding of one TXT attribute performed by `NewAnnouncer`
(`internal/discovery/announcer.go`): trim the key and the value, skip the
pair entirely when the trimmed key is empty. -/
def encodeTxtPair (k v : String) : Option String :=
  if trimSpace k = "" then none else some (trimSpace k ++ "=" ++ trimSpace v)

/-- `classifyKind` from `discovery.go`: derive the peer kind from the TXT
`role` value, trimmed then lowercased; empty maps to `tool`, the three known
roles map to themselves, and any other role is returned as-is. -/
def classifyKind (text : TxtMap) : String :=
  match text with
  | none => serverKindTool
  | some l =>
    let role := lowerStr (trimSpace (txtGet (some l) "role"))
    if role = "" then serverKindTool
    else if role = serverKindTool then serverKindTool
    else if role = serverKindAgentWrapper then serverKindAgentWrapper
    else if role = serverKindOrchestrator then serverKindOrchestrator
    else role

/-- `ServerInfo` from `discovery.go` (the `instance` field is renamed to
`instanceName` because `instance` is a Lean keyword; `LastSeen` is a wall
clock reading, modelled as a number). -/
structure ServerInfo where
  instanceName : String
  host : String
  port : Nat
  address : String
  kind : String
  lastSeen : Nat
  text : TxtMap

/-! ### MCP peer client model (`internal/mcp/client.go`) -/

/-- The pieces of a parsed absolute URL needed by `buildURL`: scheme,
authority, path, raw query and fragment (the latter two without their
leading `'?'` / `'#'`). -/
structure GoURL where
  scheme : String
  host : String
  path : String
  query : String
  fragment : String
deriving DecidableEq

/-- Split a character list at the first occurrence of `c`: everything
before, and everything after it (`none` when `c` does not occur). -/
def splitAtFirst (c : Char) : List Char → List Char × Option (List Char)
  | [] => ([], none)
  | x :: rest =>
    if x = c then ([], some rest)
    else
      let p := splitAtFirst c rest
      (x :: p.1, p.2)

/-- Whether a character may appear in a URL scheme after the first letter. -/
def isSchemeChar (c : Char) : Bool :=
  c.isAlpha || c.isDigit || c = '+' || c = '-' || c = '.'

/-- Model of Go `net/url.Parse` restricted to absolute URLs of the shape
`scheme://authority[/path][?query][#fragment]`; anything else is treated as
unparseable (`none`).  This is the fragment of `url.Parse` that `buildURL`
relies on. -/
def parseURL (s : String) : Option GoURL :=
  let (body, fragPart) := splitAtFirst '#' s.data
  let frag := (fragPart.getD [])
  let (core, queryPart) := splitAtFirst '?' body
  let query := (queryPart.getD [])
  let scheme := core.takeWhile (fun c => c ≠ ':')
  match scheme, core.dropWhile (fun c => c ≠ ':') with
  | sc :: rest, ':' :: '/' :: '/' :: after =>
    if (sc :: rest).all isSchemeChar ∧ sc.isAlpha then
      some { scheme := ⟨sc :: rest⟩
             host := ⟨after.takeWhile (fun c => c ≠ '/')⟩
             path := ⟨after.dropWhile (fun c => c ≠ '/')⟩
             query := ⟨query⟩
             fragment := ⟨frag⟩ }
    else none
  | _, _ => none

/-- Model of `(*url.URL).String()` for the URLs of `parseURL` (path escaping
is not modelled; the endpoint paths used by the client need none). -/
def urlString (u : GoURL) : String :=
  u.scheme ++ "://" ++ u.host ++ u.path ++
    (if u.query = "" then "" else "?" ++ u.query) ++
    (if u.fragment = "" then "" else "#" ++ u.fragment)

/-- Model of Go `net.JoinHostPort`. -/
def joinHostPort (host : String) (port : Nat) : String :=
  if host.data.contains ':' then "[" ++ host ++ "]:" ++ decRepr port
  else host ++ ":" ++ decRepr port

/-- Whether a string starts with `"/"`, as `strings.HasPrefix(path, "/")`. -/
def leadingSlash (s : String) : Bool :=
  match s.data with
  | '/' :: _ => true
  | _ => false

/-- `buildURL` from `internal/mcp/client.go` (the `server == nil` guard is
unrepresentable here: a `ServerInfo` value is always present). -/
def buildURL (server : ServerInfo) (path : String) : Except String String :=
  let path := if leadingSlash path then path else "/" ++ path
  let target := txtGet server.text "url"
  if trimSpace target ≠ "" then
    match parseURL target with
    | none => .error ("invalid server url " ++ target)
    | some base => .ok (urlString { base with path := path })
  else
    let host := if server.host = "" then server.instanceName else server.host
    let address :=
      if server.address = "" ∧ host ≠ "" then joinHostPort host server.port
      else server.address
    if trimSpace address = "" then
      .error ("server " ++ server.instanceName ++ " missing address")
    else
      let scheme := trimSpace (txtGet server.text "scheme")
      let scheme := if scheme = "" then "http" else scheme
      .ok (scheme ++ "://" ++ address ++ path)

/-! ### Request types model (`internal/types`, `src/unnamed/part_000`) -/

/-- `ChatMessage` from `internal/types`. -/
structure ChatMessage where
  role : String
  content : String
  name : String := ""
deriving DecidableEq

/-- A minimal JSON value, modelling Go's `map[string]any` payloads
(`parameters`, tool-call arguments, results). -/
inductive Json where
  | null
  | bool (b : Bool)
  | num (n : Int)
  | str (s : String)
  | arr (xs : List Json)
  | obj (fields : List (String × Json))

/-- `ChatCompletionRequest` from `internal/types` (optional numeric knobs
and the pass-through `tools` array carry no behaviour the mediator reads,
so they are kept as opaque presence flags where needed). -/
structure ChatCompletionRequest where
  model : String
  messages : List ChatMessage
  stream : Bool := false
  user : String := ""

/-- `Usage` from `internal/types`. -/
structure Usage where
  promptTokens : Int
  completionTokens : Int
  totalTokens : Int
deriving DecidableEq

/-- `AssistantMessage` from `internal/types`. -/
structure AssistantMessage where
  role : String
  content : String
deriving DecidableEq

/-- `Choice` from `internal/types`. -/
structure Choice where
  index : Int
  finishReason : String
  message : AssistantMessage
deriving DecidableEq

/-- `ChatCompletionResponse` from `internal/types`. -/
structure ChatCompletionResponse where
  id : String
  object : String
  created : Int
  model : String
  choices : List Choice
  usage : Usage
deriving DecidableEq

/-- The distinct error kinds produced on `HandleChat`'s admission path.
`validation` errors are plain `errors.New`/`fmt.Errorf` values; only
`modelUnsupported` and `streamingUnsupported` wrap the two exported
sentinels that the API layer can recognise with `errors.Is`. -/
inductive MedError where
  | validation (msg : String)
  | streamingUnsupported
  | modelUnsupported (model : String)
  | clientNotConfigured
deriving DecidableEq

/-- Index of the first message whose role is empty, if any (the loop inside
`ChatCompletionRequest.Validate`). -/
def firstMissingRole : List ChatMessage → Nat → Option Nat
  | [], _ => none
  | m :: rest, i => if m.role = "" then some i else firstMissingRole rest (i + 1)

/-- `ChatCompletionRequest.Validate` from `internal/types`: `none` means the
request passes the shape checks. -/
def validate (r : ChatCompletionRequest) : Option MedError :=
  if r.model = "" then some (.validation "model is required")
  else if r.messages = [] then some (.validation "at least one message is required")
  else
    match firstMissingRole r.messages 0 with
    | some i => some (.validation ("message " ++ decRepr i ++ " missing role"))
    | none => none

/-! ### Mediator model (`internal/mediator/mediator.go`) -/

/-- The mediator state read on the admission path: its external model name,
upstream provider model, normalised allowed-kinds set (empty list means no
restriction, as after `New`), and whether an upstream client is wired. -/
structure MediatorCfg where
  modelName : String
  providerModel : String
  allowedKinds : List String
  clientConfigured : Bool

/-- `supportsModel` from `mediator.go`. -/
def supportsModel (m : MediatorCfg) (model : String) : Bool := model == m.modelName

/-- `providerModelOrDefault` from `mediator.go`. -/
def providerModelOrDefault (m : MediatorCfg) : String :=
  if trimSpace m.providerModel ≠ "" then m.providerModel else m.modelName

/-- The admission prefix of `HandleChat`: shape validation, then the
streaming check, then the model check (skipped for an empty model), then
the upstream-client check.  `none` means the request is admitted. -/
def handleChatAdmission (m : MediatorCfg) (req : ChatCompletionRequest) :
    Option MedError :=
  match validate req with
  | some e => some e
  | none =>
    if req.stream then some .streamingUnsupported
    else if req.model ≠ "" ∧ ¬ supportsModel m req.model then
      some (.modelUnsupported req.model)
    else if ¬ m.clientConfigured then some .clientNotConfigured
    else none

/-- `ToolDefinition` from `internal/mcp/client.go` (a peer's catalogue
entry). -/
structure ToolDef where
  name : String
  description : String
  parameters : Json

/-- One roster entry as assembled by `collectTools`: the namespaced
function name, composed description, and pass-through parameters. -/
structure RosterEntry where
  name : String
  description : String
  parameters : Json

/-- `buildToolDescription` from `mediator.go`. -/
def buildToolDescription (toolDescription : String) (srv : Option ServerInfo) : String :=
  let parts : List String :=
    (if trimSpace toolDescription ≠ "" then [trimSpace toolDescription] else []) ++
      (match srv with
       | none => []
       | some s =>
         let serverInfo := "Provided by " ++ s.instanceName ++ " (" ++ s.kind ++ ")"
         let serverInfo :=
           if txtHas s.text "description" ∧ trimSpace (txtGet s.text "description") ≠ "" then
             serverInfo ++ " - " ++ txtGet s.text "description"
           else serverInfo
         [serverInfo])
  if parts = [] then "No description provided." else String.intercalate " | " parts

/-- `isToolHost` from `mediator.go`. -/
def isToolHost (info : ServerInfo) : Bool :=
  let kind := lowerStr (trimSpace info.kind)
  kind == lowerStr serverKindTool || kind == lowerStr serverKindAgentWrapper

/-- The base of a namespaced function name:
`slug(instance) ++ "__" ++ slug(tool_name)`. -/
def fnBase (inst tool : String) : String := slugify inst ++ "__" ++ slugify tool

/-- A collision-suffixed candidate name, `base__i`. -/
def fnSuffixed (base : String) (i : Nat) : String := base ++ "__" ++ decRepr i

/-- `buildFunctionName` from `mediator.go`: the base name if free, else the
first free `base__i` for `i = 2, 3, …`.  The Go loop is unbounded; here it
is bounded by `existing.length + 1` candidates, which always suffice (see
`firstFreeSuffix_isSome` below), so the `none` fallback is unreachable. -/
def buildFunctionName (inst tool : String) (existing : List String) : String :=
  let base := fnBase inst tool
  if existing.contains base then
    match (List.range (existing.length + 1)).find?
        (fun i => ! existing.contains (fnSuffixed base (2 + i))) with
    | some i => fnSuffixed base (2 + i)
    | none => base
  else base

/-- Lexicographic comparison of character lists, modelling Go's byte-wise
string comparison (they agree: UTF-8 byte order is code-point order). -/
def charListLtB : List Char → List Char → Bool
  | [], [] => false
  | [], _ :: _ => true
  | _ :: _, [] => false
  | a :: as, b :: bs => if a < b then true else if b < a then false else charListLtB as bs

/-- Go's `<` on strings. -/
def strLtB (a b : String) : Bool := charListLtB a.data b.data

/-- Go's `<=` on strings. -/
def strLeB (a b : String) : Bool := ! strLtB b a

/-- Insert a roster entry into a list sorted by function name
(`sort.Slice(toolParams, …Name < …Name)` — with pairwise-distinct names
every comparison sort produces this unique result). -/
def insertByName (e : RosterEntry) : List RosterEntry → List RosterEntry
  | [] => [e]
  | x :: xs => if strLeB e.name x.name then e :: x :: xs else x :: insertByName e xs

/-- Sort a roster by function name, modelling the `sort.Slice` call at the
end of `collectTools`. -/
def sortRoster : List RosterEntry → List RosterEntry
  | [] => []
  | x :: xs => insertByName x (sortRoster xs)

/-- The names of a roster, in order. -/
def rosterNames (es : List RosterEntry) : List String := es.map (·.name)

/-- The inner loop body of `collectTools`: namespace one discovered tool
against the names already taken and append it to the roster. -/
def addTool (srv : ServerInfo) (st : List RosterEntry × Option String)
    (t : ToolDef) : List RosterEntry × Option String :=
  let functionName := buildFunctionName srv.instanceName t.name (rosterNames st.1)
  (st.1 ++ [{ name := functionName
              description := buildToolDescription t.description (some srv)
              parameters := t.parameters }], st.2)

/-- The per-server step of `collectTools`: apply the allowed-kinds filter
and the tool-host filter, record a listing failure as the last error, or
fold the returned catalogue into the roster. -/
def collectStep (allowed : List String)
    (listTools : ServerInfo → Except String (List ToolDef))
    (st : List RosterEntry × Option String) (srv : ServerInfo) :
    List RosterEntry × Option String :=
  if allowed ≠ [] ∧ ¬ allowed.contains (lowerStr (trimSpace srv.kind)) then st
  else if ¬ isToolHost srv then st
  else
    match listTools srv with
    | .error e => (st.1, some e)
    | .ok tools => tools.foldl (addTool srv) st

/-- `collectTools` from `mediator.go`, with the per-peer `ListTools` network
call abstracted as an oracle.  Returns the sorted roster together with the
last listing error (`none` when every listing succeeded); an empty snapshot
short-circuits to an empty roster with no error. -/
def collectTools (servers : List ServerInfo) (allowed : List String)
    (listTools : ServerInfo → Except String (List ToolDef)) :
    List RosterEntry × Option String :=
  if servers.isEmpty then ([], none)
  else
    let st := servers.foldl (collectStep allowed listTools) ([], none)
    (sortRoster st.1, st.2)

/-- The upstream completion request assembled inside `HandleChat`'s loop:
`Tools` is only set when the roster is non-empty. -/
structure UpstreamParams where
  model : String
  tools : Option (List RosterEntry)

/-- How `HandleChat` fills `openai.ChatCompletionNewParams` from the roster:
`params.Tools = toolParams` only under `len(toolParams) > 0`. -/
def handleChatParams (m : MediatorCfg) (roster : List RosterEntry) : UpstreamParams :=
  { model := providerModelOrDefault m
    tools := if roster.isEmpty then none else some roster }

/-- One upstream choice as read by `buildOpenAIResponse` (tool calls have
been handled by the loop before the final conversion). -/
structure UpstreamChoice where
  index : Int
  finishReason : String
  content : String
deriving DecidableEq, Inhabited

/-- The upstream `openai.ChatCompletion` fields read by
`buildOpenAIResponse`. -/
structure UpstreamCompletion where
  id : String
  object : String
  created : Int
  model : String
  choices : List UpstreamChoice
  usage : Usage

/-- `buildOpenAIResponse` from `mediator.go`: convert the final upstream
completion into the external response shape, reading only `Choices[0]`
(`HandleChat` guarantees the list is non-empty before calling this). -/
def buildOpenAIResponse (model : String) (resp : UpstreamCompletion) :
    ChatCompletionResponse :=
  let choice := resp.choices.headD default
  { id := resp.id
    object := resp.object
    created := resp.created
    model := model
    choices := [{ index := choice.index
                  finishReason := choice.finishReason
                  message := { role := "assistant", content := choice.content } }]
    usage := resp.usage }

/-- The terminal conversion performed by `HandleChat`: it always passes its
own external `modelName`, never the upstream response's model label. -/
def handleChatFinalize (m : MediatorCfg) (resp : UpstreamCompletion) :
    ChatCompletionResponse :=
  buildOpenAIResponse m.modelName resp

/-! ### External chat API adapter model (`api` package, in
`src/internal/discovery/discovery.go` after the package separator) -/

/-- The `switch`/`errors.Is` mapping of `handleChatCompletions`: unsupported
model to 404, streaming to 400, everything else (validation included, since
those are plain errors) to 500. -/
def statusForError (e : MedError) : Nat :=
  match e with
  | .modelUnsupported _ => 404
  | .streamingUnsupported => 400
  | _ => 500

/-- The HTTP status written by `handleChatCompletions` when `HandleChat`
rejects a decoded request on admission (`none` when admission passes). -/
def admissionStatus (m : MediatorCfg) (req : ChatCompletionRequest) : Option Nat :=
  (handleChatAdmission m req).map statusForError

/-- The shapes rejected by admission according to the spec: missing model,
no messages, or a message without a role. -/
def ShapeFails (req : ChatCompletionRequest) : Prop :=
  req.model = "" ∨ req.messages = [] ∨ ∃ msg ∈ req.messages, msg.role = ""

/-! ### Peer tool server model (`src/unnamed/part_001`) -/

/-- `toolDefinition` from the HTTP-methods tool server. -/
structure toolDefinition where
  name : String
  description : String
  method : String
  parameters : Json

/-- `toolCallRequest` from the tool server, after JSON decoding (`nil`
arguments are `none`). -/
structure toolCallRequest where
  name : String
  arguments : Option (List (String × Json))

/-- `httpToolResult` from the tool server. -/
structure httpToolResult where
  status : Nat
  statusText : String
  headers : List (String × List String)
  body : String

/-- A stand-in result for the execution oracle in examples. -/
def emptyToolResult : httpToolResult := ⟨200, "200 OK", [], ""⟩

/-- `makeToolDefinition` from the tool server: one tool per HTTP verb. -/
def makeToolDefinition (method : String) : toolDefinition :=
  { name := "http_" ++ lowerStr method
    description := "Performs an HTTP " ++ upperStr method ++ " request to a target URL."
    method := method
    parameters := Json.obj
      [("type", Json.str "object"),
       ("properties", Json.obj
         [("url", Json.obj
            [("type", Json.str "string"),
             ("description", Json.str "Fully qualified URL to request.")]),
          ("headers", Json.obj
            [("type", Json.str "object"),
             ("description", Json.str "Optional HTTP headers."),
             ("additionalProperties", Json.obj [("type", Json.str "string")])]),
          ("body", Json.obj
            [("type", Json.str "string"),
             ("description", Json.str "Optional request body (ignored for GET/DELETE).")])]),
       ("required", Json.arr [Json.str "url"])] }

/-- The tool roster registered by `newToolServer`. -/
def defaultTools : List toolDefinition :=
  [makeToolDefinition "GET", makeToolDefinition "POST", makeToolDefinition "PUT",
   makeToolDefinition "PATCH", makeToolDefinition "DELETE"]

/-- `lookupTool` from the tool server: linear scan by exact name. -/
def lookupTool (tools : List toolDefinition) (name : String) : Option toolDefinition :=
  tools.find? (fun t => t.name == name)

/-- `extractString` from the tool server: the argument must be present and
a non-blank string. -/
def extractString (args : Option (List (String × Json))) (key : String) :
    Except String String :=
  match args with
  | none => .error ("missing " ++ key)
  | some l =>
    match l.find? (fun p => p.1 == key) with
    | none => .error ("missing " ++ key)
    | some p =>
      match p.2 with
      | .str s => if trimSpace s = "" then .error (key ++ " must be a non-empty string") else .ok s
      | _ => .error (key ++ " must be a non-empty string")

/-- The HTTP status written by `handleCallTool` for a decoded request, with
the outbound HTTP execution abstracted as an oracle (body-decode failures
happen before this point and yield 400 separately): unknown tool name →
404, missing/blank `url` argument → 400, execution failure → 400,
success → 200. -/
def handleCallToolStatus (tools : List toolDefinition) (req : toolCallRequest)
    (exec : String → String → Option (List (String × Json)) → Except String httpToolResult) :
    Nat :=
  match lookupTool tools req.name with
  | none => 404
  | some d =>
    match extractString req.arguments "url" with
    | .error _ => 400
    | .ok target =>
      match exec d.method target req.arguments with
      | .error _ => 400
      | .ok _ => 200

/-- A roster function name originates from some snapshot peer and one of
the tools its catalogue listing returned, namespaced as
`slug(instance) ++ "__" ++ slug(tool_name)` with an optional `__k`
collision suffix, `k ≥ 2`. -/
def rosterOrigin (servers : List ServerInfo)
    (listTools : ServerInfo → Except String (List ToolDef)) (n : String) : Prop :=
  ∃ srv ∈ servers, ∃ ts, listTools srv = Except.ok ts ∧ ∃ t ∈ ts,
    n = fnBase srv.instanceName t.name ∨
      ∃ k, 2 ≤ k ∧ n = fnSuffixed (fnBase srv.instanceName t.name) k

/-- The invariant maintained while `collectTools` folds over the snapshot:
names collected so far are pairwise distinct and each originates from a
snapshot peer. -/
def CollectInv (servers : List ServerInfo)
    (listTools : ServerInfo → Except String (List ToolDef))
    (st : List RosterEntry × Option String) : Prop :=
  (rosterNames st.1).Nodup ∧ ∀ e ∈ st.1, rosterOrigin servers listTools e.name

/-- Whether the first list is an initial segment of the second. -/
def strBegins : List Char → List Char → Bool
  | [], _ => true
  | _ :: _, [] => false
  | p :: ps, c :: cs => p == c && strBegins ps cs

/-- Whether a request URL uses the given scheme, i.e. starts with
`scheme ++ "://"`. -/
def usesScheme (url scheme : String) : Bool :=
  strBegins (scheme ++ "://").data url.data

/-! ### Helper lemmas: characters and decimal rendering -/

/-- `Char.ofNat` round-trips through `toNat` below the surrogate range. -/
theorem toNat_charOfNat {n : Nat} (h : n < 55296) : (Char.ofNat n).toNat = n := by
  have hv : n.isValidChar := Or.inl h
  simp [Char.ofNat, hv, Char.ofNatAux, Char.toNat, UInt32.toNat, BitVec.toNat_ofNatLt]

/-- Decimal digit characters are distinct for distinct digits. -/
theorem digitToChar_inj {d e : Nat} (hd : d < 10) (he : e < 10)
    (h : digitToChar d = digitToChar e) : d = e := by
  have hd' := toNat_charOfNat (n := 48 + d) (by omega)
  have he' := toNat_charOfNat (n := 48 + e) (by omega)
  have := congrArg Char.toNat h
  unfold digitToChar at this
  omega

/-- Appending a single element is injective in both parts. -/
theorem concat_inj {α : Type} {a b : List α} {x y : α}
    (h : a ++ [x] = b ++ [y]) : a = b ∧ x = y := by
  have hr := congrArg List.reverse h
  simp at hr
  obtain ⟨h1, h2⟩ := hr
  exact ⟨by simpa using congrArg List.reverse h2, h1⟩

/-- `decAux` renders `0` as the empty digit string at any fuel. -/
theorem decAux_zero : ∀ f, decAux f 0 = [] := by
  intro f
  cases f with
  | zero => rfl
  | succ f => simp [decAux]

/-- With sufficient fuel a positive number renders to at least one digit. -/
theorem decAux_ne_nil : ∀ f m, 1 ≤ m → m ≤ f → decAux f m ≠ [] := by
  intro f m h1 h2
  cases f with
  | zero => omega
  | succ f =>
    unfold decAux
    rw [if_neg (by omega)]
    simp

/-- Digit strings of positive numbers determine the number (at any
sufficient fuel). -/
theorem decAux_inj : ∀ f g m n, 1 ≤ m → 1 ≤ n → m ≤ f → n ≤ g →
    decAux f m = decAux g n → m = n := by
  intro f
  induction f with
  | zero => intro g m n h1 h2 h3; omega
  | succ f ih =>
    intro g m n h1 h2 h3 h4 heq
    cases g with
    | zero => omega
    | succ g =>
      unfold decAux at heq
      rw [if_neg (by omega), if_neg (by omega)] at heq
      obtain ⟨hpre, hdig⟩ := concat_inj heq
      have hmod := digitToChar_inj (Nat.mod_lt m (by omega)) (Nat.mod_lt n (by omega)) hdig
      have hmdiv : m / 10 < m := Nat.div_lt_self (by omega) (by omega)
      have hndiv : n / 10 < n := Nat.div_lt_self (by omega) (by omega)
      rcases Nat.eq_zero_or_pos (m / 10) with hm0 | hm1
      · rcases Nat.eq_zero_or_pos (n / 10) with hn0 | hn1
        · have := Nat.div_add_mod m 10
          have := Nat.div_add_mod n 10
          omega
        · exfalso
          rw [hm0, decAux_zero] at hpre
          exact decAux_ne_nil g (n / 10) hn1 (by omega) hpre.symm
      · rcases Nat.eq_zero_or_pos (n / 10) with hn0 | hn1
        · exfalso
          rw [hn0, decAux_zero] at hpre
          exact decAux_ne_nil f (m / 10) hm1 (by omega) hpre
        · have hdiv := ih g (m / 10) (n / 10) hm1 hn1 (by omega) (by omega) hpre
          have := Nat.div_add_mod m 10
          have := Nat.div_add_mod n 10
          omega

/-- A positive number never renders as the single digit `0`. -/
theorem decAux_ne_zero_singleton : ∀ k, decAux (k + 1) (k + 1) ≠ ['0'] := by
  intro k hd
  unfold decAux at hd
  rw [if_neg (by omega)] at hd
  have hd' : decAux k ((k+1) / 10) ++ [digitToChar ((k+1) % 10)] = [] ++ ['0'] := by
    simpa using hd
  obtain ⟨hpre, hdig⟩ := concat_inj hd'
  have h0 : digitToChar 0 = '0' := by decide
  have hmod : (k+1) % 10 = 0 :=
    digitToChar_inj (Nat.mod_lt _ (by omega)) (by omega) (hdig.trans h0.symm)
  have hdiv0 : (k+1) / 10 = 0 := by
    by_contra hne
    have hlt : (k+1) / 10 < k + 1 := Nat.div_lt_self (by omega) (by omega)
    exact decAux_ne_nil k ((k+1) / 10) (by omega) (by omega) hpre
  have := Nat.div_add_mod (k+1) 10
  omega

/-- The decimal rendering of naturals is injective. -/
theorem decRepr_inj {m n : Nat} (h : decRepr m = decRepr n) : m = n := by
  unfold decRepr at h
  rcases Nat.eq_zero_or_pos m with hm | hm
  · rcases Nat.eq_zero_or_pos n with hn | hn
    · omega
    · exfalso
      rw [if_pos hm, if_neg (by omega)] at h
      have hd : decAux n n = ['0'] := by
        have := congrArg String.data h
        simpa using this.symm
      cases n with
      | zero => omega
      | succ k => exact decAux_ne_zero_singleton k hd
  · rcases Nat.eq_zero_or_pos n with hn | hn
    · exfalso
      rw [if_pos hn, if_neg (by omega)] at h
      have hd : decAux m m = ['0'] := by
        have := congrArg String.data h
        simpa using this
      cases m with
      | zero => omega
      | succ k => exact decAux_ne_zero_singleton k hd
    · rw [if_neg (by omega), if_neg (by omega)] at h
      exact decAux_inj m n m n (by omega) (by omega) (by omega) (by omega)
        (by have := congrArg String.data h; simpa using this)

/-- Collision-suffixed candidates with the same base are distinct for
distinct suffixes. -/
theorem fnSuffixed_inj {base : String} {i j : Nat}
    (h : fnSuffixed base i = fnSuffixed base j) : i = j := by
  unfold fnSuffixed at h
  have hdata := congrArg String.data h
  simp only [String.data_append] at hdata
  have := List.append_cancel_left hdata
  exact decRepr_inj (by
    apply congrArg (fun l => String.mk l) at this
    simpa using this)

/-- Among `existing.length + 1` pairwise-distinct suffixed candidates at
least one is not in `existing`, so the bounded search of
`buildFunctionName` always finds a free name. -/
theorem firstFreeSuffix_isSome (base : String) (existing : List String) :
    ((List.range (existing.length + 1)).find?
        (fun i => ! existing.contains (fnSuffixed base (2 + i)))).isSome := by
  cases hf : (List.range (existing.length + 1)).find?
      (fun i => ! existing.contains (fnSuffixed base (2 + i))) with
  | some i => rfl
  | none =>
    exfalso
    rw [List.find?_eq_none] at hf
    have hall : ∀ i ∈ List.range (existing.length + 1),
        fnSuffixed base (2 + i) ∈ existing := by
      intro i hi
      have := hf i hi
      simpa using this
    have hinj : Function.Injective (fun i => fnSuffixed base (2 + i)) := by
      intro i j hij
      have := fnSuffixed_inj hij
      omega
    have hnodup : ((List.range (existing.length + 1)).map
        (fun i => fnSuffixed base (2 + i))).Nodup :=
      (List.nodup_range _).map hinj
    have hsub : ((List.range (existing.length + 1)).map
        (fun i => fnSuffixed base (2 + i))) ⊆ existing := by
      intro x hx
      obtain ⟨i, hi, rfl⟩ := List.mem_map.1 hx
      exact hall i hi
    have hle := (hnodup.subperm hsub).length_le
    simp at hle

/-- The name chosen by `buildFunctionName` is never one already taken. -/
theorem buildFunctionName_not_mem (inst tool : String) (existing : List String) :
    buildFunctionName inst tool existing ∉ existing := by
  unfold buildFunctionName
  by_cases hb : existing.contains (fnBase inst tool)
  · rw [if_pos hb]
    cases hf : (List.range (existing.length + 1)).find?
        (fun i => ! existing.contains (fnSuffixed (fnBase inst tool) (2 + i))) with
    | some i =>
      have := List.find?_some hf
      simpa using this
    | none =>
      have := firstFreeSuffix_isSome (fnBase inst tool) existing
      rw [hf] at this
      simp at this
  · rw [if_neg hb]
    simpa using hb

/-- Every chosen name is the base name or a `__k`-suffixed variant with
`k ≥ 2`. -/
theorem buildFunctionName_shape (inst tool : String) (existing : List String) :
    buildFunctionName inst tool existing = fnBase inst tool ∨
    ∃ k, 2 ≤ k ∧ buildFunctionName inst tool existing = fnSuffixed (fnBase inst tool) k := by
  unfold buildFunctionName
  by_cases hb : existing.contains (fnBase inst tool)
  · rw [if_pos hb]
    cases hf : (List.range (existing.length + 1)).find?
        (fun i => ! existing.contains (fnSuffixed (fnBase inst tool) (2 + i))) with
    | some i => exact Or.inr ⟨2 + i, by omega, rfl⟩
    | none => exact Or.inl rfl
  · rw [if_neg hb]
    exact Or.inl rfl
/-! ### Helper lemmas: string comparison and roster sorting -/

/-- `charListLtB` decides lexicographic order on character lists. -/
theorem charListLtB_iff : ∀ a b : List Char, charListLtB a b = true ↔ List.Lex (· < ·) a b := by
  intro a
  induction a with
  | nil =>
    intro b
    cases b with
    | nil =>
      simp only [charListLtB]
      constructor
      · intro h; cases h
      · intro h; cases h
    | cons c cs =>
      simp only [charListLtB]
      constructor
      · intro _; exact List.Lex.nil
      · intro _; trivial
  | cons x xs ih =>
    intro b
    cases b with
    | nil =>
      simp only [charListLtB]
      constructor
      · intro h; cases h
      · intro h; cases h
    | cons c cs =>
      simp only [charListLtB]
      by_cases h1 : x < c
      · rw [if_pos h1]
        constructor
        · intro _; exact List.Lex.rel h1
        · intro _; trivial
      · rw [if_neg h1]
        by_cases h2 : c < x
        · rw [if_pos h2]
          constructor
          · intro h; cases h
          · intro h
            cases h with
            | cons h => exact absurd h2 (lt_irrefl x)
            | rel h => exact absurd h h1
        · rw [if_neg h2]
          have hxc : x = c := le_antisymm (not_lt.mp h2) (not_lt.mp h1)
          subst hxc
          rw [ih cs]
          constructor
          · intro h; exact List.Lex.cons h
          · intro h
            cases h with
            | cons h => exact h
            | rel h => exact absurd h h1

/-- `strLtB` decides the lexicographic `<` on strings. -/
theorem strLtB_iff (a b : String) : strLtB a b = true ↔ a < b := by
  rw [String.lt_iff_toList_lt]
  exact charListLtB_iff a.data b.data

/-- `strLeB` decides the lexicographic `≤` on strings. -/
theorem strLeB_iff (a b : String) : strLeB a b = true ↔ a ≤ b := by
  unfold strLeB
  rw [Bool.not_eq_true', ← Bool.not_eq_true (strLtB b a)]
  constructor
  · intro h
    rw [strLtB_iff] at h
    exact not_lt.mp h
  · intro h
    rw [strLtB_iff]
    exact not_lt.mpr h

/-- Membership in an ordered insertion. -/
theorem mem_insertByName {e x : RosterEntry} : ∀ {l : List RosterEntry},
    x ∈ insertByName e l ↔ x = e ∨ x ∈ l := by
  intro l
  induction l with
  | nil => simp [insertByName]
  | cons y ys ih =>
    unfold insertByName
    by_cases h : strLeB e.name y.name = true
    · rw [if_pos h]
      simp
    · rw [if_neg h]
      simp only [List.mem_cons, ih]
      tauto

/-- Ordered insertion permutes the element onto the list. -/
theorem insertByName_perm (e : RosterEntry) : ∀ (l : List RosterEntry),
    List.Perm (insertByName e l) (e :: l) := by
  intro l
  induction l with
  | nil => simp [insertByName]
  | cons y ys ih =>
    unfold insertByName
    by_cases h : strLeB e.name y.name = true
    · rw [if_pos h]
    · rw [if_neg h]
      exact (ih.cons y).trans (List.Perm.swap e y ys)

/-- `sortRoster` permutes its input. -/
theorem sortRoster_perm : ∀ (l : List RosterEntry), List.Perm (sortRoster l) l := by
  intro l
  induction l with
  | nil => exact List.Perm.refl []
  | cons y ys ih => exact (insertByName_perm y (sortRoster ys)).trans (ih.cons y)

/-- Ordered insertion preserves sortedness by name. -/
theorem sorted_insertByName {e : RosterEntry} : ∀ {l : List RosterEntry},
    l.Pairwise (fun a b => a.name ≤ b.name) →
    (insertByName e l).Pairwise (fun a b => a.name ≤ b.name) := by
  intro l
  induction l with
  | nil => intro _; simp [insertByName]
  | cons y ys ih =>
    intro h
    rw [List.pairwise_cons] at h
    obtain ⟨hy, hys⟩ := h
    unfold insertByName
    by_cases hle : strLeB e.name y.name = true
    · rw [if_pos hle]
      have hle' : e.name ≤ y.name := (strLeB_iff _ _).1 hle
      rw [List.pairwise_cons]
      refine ⟨?_, List.pairwise_cons.2 ⟨hy, hys⟩⟩
      intro z hz
      rcases List.mem_cons.1 hz with rfl | hz
      · exact hle'
      · exact le_trans hle' (hy z hz)
    · rw [if_neg hle]
      have hgt : y.name ≤ e.name :=
        le_of_not_le (fun hc => hle ((strLeB_iff _ _).2 hc))
      rw [List.pairwise_cons]
      refine ⟨?_, ih hys⟩
      intro z hz
      rcases mem_insertByName.1 hz with rfl | hz
      · exact hgt
      · exact hy z hz

/-- `sortRoster` sorts by name. -/
theorem sorted_sortRoster : ∀ (l : List RosterEntry),
    (sortRoster l).Pairwise (fun a b => a.name ≤ b.name) := by
  intro l
  induction l with
  | nil => simp [sortRoster]
  | cons y ys ih => exact sorted_insertByName ih

/-! ### Helper lemmas: the `collectTools` fold -/

/-- Folding one peer's catalogue into the roster preserves the collection
invariant. -/
theorem addTool_foldl_inv {servers : List ServerInfo}
    {listTools : ServerInfo → Except String (List ToolDef)}
    {srv : ServerInfo} {ts : List ToolDef}
    (hsrv : srv ∈ servers) (hok : listTools srv = Except.ok ts) :
    ∀ (ts' : List ToolDef), (∀ t ∈ ts', t ∈ ts) →
    ∀ st, CollectInv servers listTools st →
      CollectInv servers listTools (ts'.foldl (addTool srv) st) := by
  intro ts'
  induction ts' with
  | nil => intro _ st h; exact h
  | cons t rest ih =>
    intro hsub st hinv
    simp only [List.foldl_cons]
    refine ih (fun x hx => hsub x (List.mem_cons_of_mem t hx)) _ ?_
    obtain ⟨hnd, horig⟩ := hinv
    constructor
    · unfold addTool rosterNames
      simp only [List.map_append, List.map_cons, List.map_nil]
      rw [List.nodup_append]
      refine ⟨hnd, List.nodup_singleton _, ?_⟩
      intro x hx
      simp only [List.mem_singleton]
      intro hxeq
      subst hxeq
      exact buildFunctionName_not_mem srv.instanceName t.name (rosterNames st.1) hx
    · intro e he
      unfold addTool at he
      rcases List.mem_append.1 he with he | he
      · exact horig e he
      · have he' : e.name = buildFunctionName srv.instanceName t.name (rosterNames st.1) := by
          simp only [List.mem_singleton] at he
          rw [he]
        refine ⟨srv, hsrv, ts, hok, t, hsub t (List.mem_cons_self t rest), ?_⟩
        rw [he']
        exact buildFunctionName_shape srv.instanceName t.name (rosterNames st.1)

/-- One step of the snapshot fold preserves the collection invariant. -/
theorem collectStep_inv {servers : List ServerInfo}
    {listTools : ServerInfo → Except String (List ToolDef)}
    {allowed : List String} {srv : ServerInfo} (hsrv : srv ∈ servers) :
    ∀ st, CollectInv servers listTools st →
      CollectInv servers listTools (collectStep allowed listTools st srv) := by
  intro st hinv
  unfold collectStep
  by_cases h1 : allowed ≠ [] ∧ ¬ allowed.contains (lowerStr (trimSpace srv.kind))
  · rw [if_pos h1]; exact hinv
  · rw [if_neg h1]
    by_cases h2 : ¬ isToolHost srv
    · rw [if_pos h2]; exact hinv
    · rw [if_neg h2]
      cases hok : listTools srv with
      | error e => exact hinv
      | ok ts => exact addTool_foldl_inv hsrv hok ts (fun t ht => ht) st hinv

/-- The whole snapshot fold preserves the collection invariant. -/
theorem collect_foldl_inv {servers : List ServerInfo}
    {listTools : ServerInfo → Except String (List ToolDef)}
    {allowed : List String} :
    ∀ (srvs : List ServerInfo), (∀ s ∈ srvs, s ∈ servers) →
    ∀ st, CollectInv servers listTools st →
      CollectInv servers listTools (srvs.foldl (collectStep allowed listTools) st) := by
  intro srvs
  induction srvs with
  | nil => intro _ st h; exact h
  | cons s rest ih =>
    intro hsub st hinv
    simp only [List.foldl_cons]
    exact ih (fun x hx => hsub x (List.mem_cons_of_mem s hx)) _
      (collectStep_inv (hsub s (List.mem_cons_self s rest)) st hinv)

/-- The roster returned by `collectTools` satisfies the invariant: its
names are pairwise distinct and each has a snapshot origin. -/
theorem collectTools_inv (servers : List ServerInfo) (allowed : List String)
    (listTools : ServerInfo → Except String (List ToolDef)) :
    (rosterNames (collectTools servers allowed listTools).1).Nodup ∧
    ∀ e ∈ (collectTools servers allowed listTools).1,
      rosterOrigin servers listTools e.name := by
  unfold collectTools
  by_cases h : servers.isEmpty
  · rw [if_pos h]
    constructor
    · exact List.nodup_nil
    · intro e he
      simp at he
  · rw [if_neg h]
    have hinv := @collect_foldl_inv servers listTools allowed servers
      (fun s hs => hs) ([], none)
      ⟨List.nodup_nil, by intro e he; simp at he⟩
    obtain ⟨hnd, horig⟩ := hinv
    constructor
    · have hperm := (sortRoster_perm
        (servers.foldl (collectStep allowed listTools) ([], none)).1).map (·.name)
      exact (hperm.nodup_iff).2 hnd
    · intro e he
      exact horig e ((sortRoster_perm _).mem_iff.1 he)

/-! ### Helper lemmas: `slugify` -/

/-- Characters are equal iff their code points are. -/
theorem char_eq_iff_toNat {a b : Char} : a = b ↔ a.toNat = b.toNat := by
  constructor
  · intro h; rw [h]
  · intro h
    have := congrArg Char.ofNat h
    simpa using this

/-- Code points in `91..122` are not ASCII whitespace. -/
theorem notWs_of_toNat {c : Char} (h1 : 91 ≤ c.toNat) (h2 : c.toNat ≤ 122) :
    goIsSpace c = false := by
  unfold goIsSpace Char.isWhitespace
  have hs : c ≠ ' ' := by
    intro h; rw [char_eq_iff_toNat, show (' ' : Char).toNat = 32 from rfl] at h; omega
  have ht : c ≠ '\t' := by
    intro h; rw [char_eq_iff_toNat, show ('\t' : Char).toNat = 9 from rfl] at h; omega
  have hr : c ≠ '\r' := by
    intro h; rw [char_eq_iff_toNat, show ('\r' : Char).toNat = 13 from rfl] at h; omega
  have hn : c ≠ '\n' := by
    intro h; rw [char_eq_iff_toNat, show ('\n' : Char).toNat = 10 from rfl] at h; omega
  simp [hs, ht, hr, hn]

/-- ASCII lowercasing is idempotent. -/
theorem toLowerChar_idem (c : Char) : toLowerChar (toLowerChar c) = toLowerChar c := by
  unfold toLowerChar
  by_cases h : 65 ≤ c.toNat ∧ c.toNat ≤ 90
  · rw [if_pos h]
    have hn := toNat_charOfNat (n := c.toNat + 32) (by omega)
    rw [if_neg (by omega)]
  · rw [if_neg h, if_neg h]

/-- The slug replacement is idempotent. -/
theorem slugReplaceChar_idem (c : Char) :
    slugReplaceChar (slugReplaceChar c) = slugReplaceChar c := by
  unfold slugReplaceChar
  by_cases h : c = ' ' ∨ c = '-' ∨ c = '.' ∨ c = '/' ∨ c = ':'
  · rw [if_pos h, if_neg (by decide)]
  · rw [if_neg h, if_neg h]

/-- Lowercasing fixes the output of the slug pipeline character map. -/
theorem lower_fix_replace (c : Char) :
    toLowerChar (slugReplaceChar (toLowerChar c)) = slugReplaceChar (toLowerChar c) := by
  by_cases h : (toLowerChar c) = ' ' ∨ (toLowerChar c) = '-' ∨ (toLowerChar c) = '.' ∨
      (toLowerChar c) = '/' ∨ (toLowerChar c) = ':'
  · unfold slugReplaceChar
    rw [if_pos h]
    decide
  · unfold slugReplaceChar
    rw [if_neg h]
    exact toLowerChar_idem c

/-- The slug pipeline maps non-whitespace to non-whitespace. -/
theorem notWs_lower_replace {c : Char} (h : goIsSpace c = false) :
    goIsSpace (slugReplaceChar (toLowerChar c)) = false := by
  by_cases hl : 65 ≤ c.toNat ∧ c.toNat ≤ 90
  · have hlow : toLowerChar c = Char.ofNat (c.toNat + 32) := if_pos hl
    have hn := toNat_charOfNat (n := c.toNat + 32) (by omega)
    by_cases hr : (toLowerChar c) = ' ' ∨ (toLowerChar c) = '-' ∨ (toLowerChar c) = '.' ∨
        (toLowerChar c) = '/' ∨ (toLowerChar c) = ':'
    · unfold slugReplaceChar
      rw [if_pos hr]
      decide
    · unfold slugReplaceChar
      rw [if_neg hr, hlow]
      exact notWs_of_toNat (by omega) (by omega)
  · have hlow : toLowerChar c = c := if_neg hl
    by_cases hr : (toLowerChar c) = ' ' ∨ (toLowerChar c) = '-' ∨ (toLowerChar c) = '.' ∨
        (toLowerChar c) = '/' ∨ (toLowerChar c) = ':'
    · unfold slugReplaceChar
      rw [if_pos hr]
      decide
    · unfold slugReplaceChar
      rw [if_neg hr, hlow]
      exact h

/-- The first survivor of `dropWhile` fails the predicate. -/
theorem head?_dropWhile {p : Char → Bool} {l : List Char} {c : Char}
    (h : (l.dropWhile p).head? = some c) : p c = false := by
  have := List.head?_dropWhile_not p l
  rw [h] at this
  exact this

/-- `dropWhile` is the identity when the head already fails the predicate. -/
theorem dropWhile_eq_self_of_head {l : List Char}
    (h : ∀ c, l.head? = some c → goIsSpace c = false) :
    l.dropWhile goIsSpace = l := by
  cases l with
  | nil => rfl
  | cons x xs =>
    have := h x rfl
    simp [List.dropWhile_cons, this]

/-- A trimmed list never starts with whitespace. -/
theorem trimSpaceList_head? {l : List Char} {c : Char}
    (h : (trimSpaceList l).head? = some c) : goIsSpace c = false := by
  unfold trimSpaceList at h
  set a := l.dropWhile goIsSpace with ha
  set b := a.reverse.dropWhile goIsSpace with hb
  obtain ⟨cpre, hcat⟩ := List.dropWhile_suffix (l := a.reverse) goIsSpace
  rw [← hb] at hcat
  have haeq : a = b.reverse ++ cpre.reverse := by
    have := congrArg List.reverse hcat
    simpa using this.symm
  have hhead : a.head? = some c := by
    rw [haeq]
    rw [List.head?_append, h]
    rfl
  exact head?_dropWhile (ha ▸ hhead)

/-- A trimmed list never ends with whitespace. -/
theorem trimSpaceList_revhead? {l : List Char} {c : Char}
    (h : (trimSpaceList l).reverse.head? = some c) : goIsSpace c = false := by
  unfold trimSpaceList at h
  rw [List.reverse_reverse] at h
  exact head?_dropWhile h

/-- Trimming fixes a list with non-whitespace ends. -/
theorem trimSpaceList_fix {r : List Char}
    (h1 : ∀ c, r.head? = some c → goIsSpace c = false)
    (h2 : ∀ c, r.reverse.head? = some c → goIsSpace c = false) :
    trimSpaceList r = r := by
  unfold trimSpaceList
  rw [dropWhile_eq_self_of_head h1, dropWhile_eq_self_of_head h2]
  simp

/-- The slug pipeline is idempotent on character lists. -/
theorem slugifyList_idem (l : List Char) : slugifyList (slugifyList l) = slugifyList l := by
  by_cases h : (trimSpaceList l).map toLowerChar = []
  · have h1 : slugifyList l = ['t', 'o', 'o', 'l'] := by
      simp [slugifyList, h]
    rw [h1]
    decide
  · have hr_eq : slugifyList l = ((trimSpaceList l).map toLowerChar).map slugReplaceChar := by
      simp [slugifyList, h]
    set u := trimSpaceList l with hu
    set r := (u.map toLowerChar).map slugReplaceChar with hrdef
    have hrf : r = u.map (fun c => slugReplaceChar (toLowerChar c)) := by
      rw [hrdef, List.map_map]
      rfl
    have hune : u ≠ [] := by
      intro h0
      apply h
      rw [h0]
      rfl
    have hrne : r ≠ [] := by
      rw [hrf]
      simpa using hune
    have hhead : ∀ c, r.head? = some c → goIsSpace c = false := by
      intro c hc
      rw [hrf, List.head?_map] at hc
      cases hu0 : u.head? with
      | none => rw [hu0] at hc; simp at hc
      | some c0 =>
        rw [hu0] at hc
        simp at hc
        rw [← hc]
        exact notWs_lower_replace (trimSpaceList_head? hu0)
    have hrev : ∀ c, r.reverse.head? = some c → goIsSpace c = false := by
      intro c hc
      rw [hrf, ← List.map_reverse, List.head?_map] at hc
      cases hu0 : u.reverse.head? with
      | none => rw [hu0] at hc; simp at hc
      | some c0 =>
        rw [hu0] at hc
        simp at hc
        rw [← hc]
        exact notWs_lower_replace (trimSpaceList_revhead? hu0)
    have htrim : trimSpaceList r = r := trimSpaceList_fix hhead hrev
    have hlow : r.map toLowerChar = r := by
      rw [hrf, List.map_map]
      apply List.map_congr_left
      intro c _
      exact lower_fix_replace c
    have hrep : r.map slugReplaceChar = r := by
      rw [hrf, List.map_map]
      apply List.map_congr_left
      intro c _
      exact slugReplaceChar_idem (toLowerChar c)
    rw [hr_eq]
    show slugifyList r = r
    unfold slugifyList
    rw [htrim, hlow, if_neg hrne, hrep]

/-! ### Helper lemmas: miscellaneous -/

/-- Parsing a record whose key part contains no `'='` splits exactly at the
separator. -/
theorem parseTxtList_append {ks : List Char} (vs : List Char) (h : '=' ∉ ks) :
    parseTxtList (ks ++ '=' :: vs) = some (ks, vs) := by
  induction ks with
  | nil => simp [parseTxtList]
  | cons c cs ih =>
    have hc : c ≠ '=' := fun hc => h (hc ▸ List.mem_cons_self c cs)
    have hcs : '=' ∉ cs := fun hm => h (List.mem_cons_of_mem c hm)
    simp only [List.cons_append, parseTxtList, if_neg hc, List.append_eq, ih hcs,
      Option.map_some]
    rfl

/-- When some message lacks a role, the scan of `Validate` finds one. -/
theorem firstMissingRole_isSome {msgs : List ChatMessage}
    (h : ∃ m ∈ msgs, m.role = "") : ∀ i, (firstMissingRole msgs i).isSome := by
  induction msgs with
  | nil => simp at h
  | cons m rest ih =>
    intro i
    unfold firstMissingRole
    by_cases hm : m.role = ""
    · rw [if_pos hm]
      rfl
    · rw [if_neg hm]
      obtain ⟨x, hx, hxr⟩ := h
      rcases List.mem_cons.1 hx with rfl | hx
      · exact absurd hxr hm
      · exact ih ⟨x, hx, hxr⟩ (i + 1)

/-- A request that fails the spec's shape admission fails `Validate` with a
plain validation error. -/
theorem validate_of_shapeFails {req : ChatCompletionRequest} (h : ShapeFails req) :
    ∃ msg, validate req = some (MedError.validation msg) := by
  unfold validate
  by_cases h1 : req.model = ""
  · exact ⟨"model is required", by rw [if_pos h1]⟩
  · rw [if_neg h1]
    by_cases h2 : req.messages = []
    · exact ⟨"at least one message is required", by rw [if_pos h2]⟩
    · rw [if_neg h2]
      have h3 : ∃ m ∈ req.messages, m.role = "" := by
        rcases h with h | h | h
        · exact absurd h h1
        · exact absurd h h2
        · exact h
      have := firstMissingRole_isSome h3 0
      cases hf : firstMissingRole req.messages 0 with
      | none => rw [hf] at this; simp at this
      | some i =>
        refine ⟨"message " ++ decRepr i ++ " missing role", ?_⟩
        simp only [hf]

/-- A list begins with any of its own prefixes. -/
theorem strBegins_append : ∀ (p q : List Char), strBegins p (p ++ q) = true := by
  intro p
  induction p with
  | nil => intro q; rfl
  | cons c cs ih =>
    intro q
    simp [strBegins, List.append_eq, ih q]

/-- `headD` agrees with `head` on non-empty lists. -/
theorem headD_eq_head {α : Type} {l : List α} (d : α) (h : l ≠ []) :
    l.headD d = l.head h := by
  cases l with
  | nil => exact absurd rfl h
  | cons x xs => rfl

/-- The roster names returned by `collectTools` are sorted (weakly). -/
theorem collectTools_names_le (servers : List ServerInfo) (allowed : List String)
    (listTools : ServerInfo → Except String (List ToolDef)) :
    (rosterNames (collectTools servers allowed listTools).1).Pairwise (· ≤ ·) := by
  unfold collectTools
  by_cases h : servers.isEmpty
  · rw [if_pos h]
    exact List.Pairwise.nil
  · rw [if_neg h]
    have := sorted_sortRoster (servers.foldl (collectStep allowed listTools) ([], none)).1
    unfold rosterNames
    rw [List.pairwise_map]
    exact this

/-! ### Claim theorems -/

/-- C4: for every snapshot and every set of per-peer tool lists, the roster
built by `collectTools` has pairwise-distinct function names in
lexicographic order, and each name is `slug(instance) ++ "__" ++
slug(tool_name)` for its originating peer and tool, with a `__k` (`k ≥ 2`)
suffix appended on collision within the roster. -/
theorem C4_roster_names_sorted_distinct (servers : List ServerInfo)
    (allowed : List String) (listTools : ServerInfo → Except String (List ToolDef)) :
    (rosterNames (collectTools servers allowed listTools).1).Pairwise (· < ·) ∧
    ∀ n ∈ rosterNames (collectTools servers allowed listTools).1,
      rosterOrigin servers listTools n := by
  obtain ⟨hnd, horig⟩ := collectTools_inv servers allowed listTools
  have hle := collectTools_names_le servers allowed listTools
  constructor
  · exact List.Sorted.lt_of_le hle hnd
  · intro n hn
    obtain ⟨e, he, rfl⟩ := List.mem_map.1 hn
    exact horig e he

/-- Instantiation of the C4 theorem: two `tool` peers each expose `ping`;
the roster names are sorted, distinct, and `a__ping` has a valid origin. -/
theorem C4_roster_names_sorted_distinct_witness :
    (rosterNames (collectTools
        [⟨"A", "h", 1, "h:1", "tool", 0, some []⟩, ⟨"B", "h", 2, "h:2", "tool", 0, some []⟩]
        [] (fun _ => Except.ok [⟨"ping", "", Json.null⟩])).1).Pairwise (· < ·) ∧
    rosterOrigin
      [⟨"A", "h", 1, "h:1", "tool", 0, some []⟩, ⟨"B", "h", 2, "h:2", "tool", 0, some []⟩]
      (fun _ => Except.ok [⟨"ping", "", Json.null⟩]) "a__ping" := by
  have h := C4_roster_names_sorted_distinct
    [⟨"A", "h", 1, "h:1", "tool", 0, some []⟩, ⟨"B", "h", 2, "h:2", "tool", 0, some []⟩]
    [] (fun _ => Except.ok [⟨"ping", "", Json.null⟩])
  refine ⟨h.1, h.2 "a__ping" ?_⟩
  decide

/-- C6: `slugify` is idempotent. -/
theorem C6_slug_idempotent (s : String) : slugify (slugify s) = slugify s := by
  unfold slugify
  exact congrArg String.mk (slugifyList_idem s.data)

/-- C9: an empty registry snapshot yields an empty roster with no error,
and the upstream completion request then carries no tools field at all. -/
theorem C9_empty_snapshot (m : MediatorCfg) (allowed : List String)
    (listTools : ServerInfo → Except String (List ToolDef)) :
    collectTools [] allowed listTools = ([], none) ∧
    (handleChatParams m (collectTools [] allowed listTools).1).tools = none :=
  ⟨rfl, rfl⟩

/-- C10: the external response holds exactly one choice, built from the
first upstream choice, and its model field is the mediator's configured
external model name, not the upstream response's model label. -/
theorem C10_single_choice_configured_model (m : MediatorCfg)
    (resp : UpstreamCompletion) (h : resp.choices ≠ []) :
    (handleChatFinalize m resp).choices =
      [{ index := (resp.choices.head h).index
         finishReason := (resp.choices.head h).finishReason
         message := { role := "assistant", content := (resp.choices.head h).content } }] ∧
    (handleChatFinalize m resp).choices.length = 1 ∧
    (handleChatFinalize m resp).model = m.modelName ∧
    (m.modelName ≠ resp.model → (handleChatFinalize m resp).model ≠ resp.model) := by
  unfold handleChatFinalize buildOpenAIResponse
  rw [headD_eq_head _ h]
  exact ⟨rfl, rfl, rfl, fun hne => hne⟩

/-- Instantiation of the C10 theorem: a two-choice upstream completion
labelled `upstream-model` becomes a single-choice response labelled with
the mediator's `go-agent-1`. -/
theorem C10_single_choice_configured_model_witness :
    (handleChatFinalize ⟨"go-agent-1", "prov", [], true⟩
        ⟨"id1", "chat.completion", 5, "upstream-model",
          [⟨0, "stop", "hello"⟩, ⟨1, "stop", "bye"⟩], ⟨1, 1, 2⟩⟩).choices.length = 1 ∧
    (handleChatFinalize ⟨"go-agent-1", "prov", [], true⟩
        ⟨"id1", "chat.completion", 5, "upstream-model",
          [⟨0, "stop", "hello"⟩, ⟨1, "stop", "bye"⟩], ⟨1, 1, 2⟩⟩).model = "go-agent-1" := by
  have h := C10_single_choice_configured_model ⟨"go-agent-1", "prov", [], true⟩
    ⟨"id1", "chat.completion", 5, "upstream-model",
      [⟨0, "stop", "hello"⟩, ⟨1, "stop", "bye"⟩], ⟨1, 1, 2⟩⟩ (by decide)
  exact ⟨h.2.1, h.2.2.1⟩

/-- C1 counterexample: a decoded request with empty model fails shape
admission, yet the handler's status for it is 500, not 400 — only the
model-unsupported and streaming sentinels get dedicated statuses. -/
theorem C1_validation_status_counterexample :
    ShapeFails ⟨"", [⟨"user", "hi", ""⟩], false, ""⟩ ∧
    admissionStatus ⟨"go-agent-1", "", [], true⟩ ⟨"", [⟨"user", "hi", ""⟩], false, ""⟩ =
      some 500 ∧
    admissionStatus ⟨"go-agent-1", "", [], true⟩ ⟨"", [⟨"user", "hi", ""⟩], false, ""⟩ ≠
      some 400 := by
  refine ⟨Or.inl rfl, rfl, ?_⟩
  decide

/-- C1 amended: every request whose shape fails admission (missing model,
no messages, or a message without a role) is answered with HTTP 500, the
default branch of the handler's error mapping. -/
theorem C1_validation_maps_to_500 (m : MediatorCfg) (req : ChatCompletionRequest)
    (h : ShapeFails req) : admissionStatus m req = some 500 := by
  obtain ⟨msg, hv⟩ := validate_of_shapeFails h
  unfold admissionStatus handleChatAdmission
  rw [hv]
  rfl

/-- Instantiation of the C1 theorem at a request with no messages. -/
theorem C1_validation_maps_to_500_witness :
    ShapeFails ⟨"m1", [], false, ""⟩ ∧
    admissionStatus ⟨"go-agent-1", "", [], true⟩ ⟨"m1", [], false, ""⟩ = some 500 :=
  ⟨Or.inr (Or.inl rfl),
    C1_validation_maps_to_500 ⟨"go-agent-1", "", [], true⟩ ⟨"m1", [], false, ""⟩
      (Or.inr (Or.inl rfl))⟩

/-- C2 counterexample: a well-formed `/tools/call` body naming an
unregistered tool is answered with 404, not the 400 used for malformed
arguments. -/
theorem C2_unknown_tool_counterexample :
    handleCallToolStatus defaultTools ⟨"nope", some [("url", Json.str "http://x")]⟩
        (fun _ _ _ => Except.ok emptyToolResult) = 404 ∧
    handleCallToolStatus defaultTools ⟨"nope", some [("url", Json.str "http://x")]⟩
        (fun _ _ _ => Except.ok emptyToolResult) ≠ 400 := by
  exact ⟨rfl, by decide⟩

/-- C2 amended: whenever the requested tool name matches no registered
tool, the tool server responds 404 (argument validation never runs). -/
theorem C2_unknown_tool_404 (tools : List toolDefinition) (req : toolCallRequest)
    (exec : String → String → Option (List (String × Json)) → Except String httpToolResult)
    (h : lookupTool tools req.name = none) :
    handleCallToolStatus tools req exec = 404 := by
  unfold handleCallToolStatus
  rw [h]

/-- Instantiation of the C2 theorem at the default roster and name
`http_head`. -/
theorem C2_unknown_tool_404_witness :
    handleCallToolStatus defaultTools ⟨"http_head", none⟩
      (fun _ _ _ => Except.ok emptyToolResult) = 404 :=
  C2_unknown_tool_404 defaultTools ⟨"http_head", none⟩
    (fun _ _ _ => Except.ok emptyToolResult) rfl

/-- C3 counterexample: a TXT role outside the three known kinds classifies
as its own lowercased trimmed value, not as the constant `unknown`. -/
theorem C3_unknown_role_counterexample :
    classifyKind (some [("role", "Database ")]) = "database" ∧
    classifyKind (some [("role", "Database ")]) ≠ serverKindUnknown := by
  exact ⟨rfl, by decide⟩

/-- C3 amended: the kind is the TXT `role` value trimmed then lowercased;
empty (or absent) yields `tool`, and any non-empty value — the three known
roles included — yields itself. -/
theorem C3_classifyKind_role (t : TxtMap) :
    (lowerStr (trimSpace (txtGet t "role")) = "" → classifyKind t = serverKindTool) ∧
    (lowerStr (trimSpace (txtGet t "role")) ≠ "" →
      classifyKind t = lowerStr (trimSpace (txtGet t "role"))) := by
  cases t with
  | none =>
    constructor
    · intro _
      rfl
    · intro h
      exact absurd rfl h
  | some l =>
    simp only [classifyKind]
    constructor
    · intro h
      rw [if_pos h]
    · intro h
      rw [if_neg h]
      by_cases h1 : lowerStr (trimSpace (txtGet (some l) "role")) = serverKindTool
      · rw [if_pos h1, h1]
      · rw [if_neg h1]
        by_cases h2 : lowerStr (trimSpace (txtGet (some l) "role")) = serverKindAgentWrapper
        · rw [if_pos h2, h2]
        · rw [if_neg h2]
          by_cases h3 : lowerStr (trimSpace (txtGet (some l) "role")) = serverKindOrchestrator
          · rw [if_pos h3, h3]
          · rw [if_neg h3]

/-- Instantiation of the C3 theorem at a padded mixed-case known role. -/
theorem C3_classifyKind_role_witness :
    classifyKind (some [("role", " Agent-Wrapper ")]) = "agent-wrapper" := by
  have h := (C3_classifyKind_role (some [("role", " Agent-Wrapper ")])).2 (by decide)
  exact h.trans (by decide)

/-- C5 counterexample: an otherwise well-formed request with
`request.model = ""` is rejected by `HandleChat`'s admission — shape
validation fires before the (indeed bypassed) model-support check. -/
theorem C5_empty_model_counterexample :
    handleChatAdmission ⟨"go-agent-1", "", [], true⟩ ⟨"", [⟨"user", "hi", ""⟩], false, ""⟩ =
      some (MedError.validation "model is required") ∧
    handleChatAdmission ⟨"go-agent-1", "", [], true⟩ ⟨"", [⟨"user", "hi", ""⟩], false, ""⟩ ≠
      none := by
  exact ⟨rfl, by decide⟩

/-- C5 amended: every request with an empty model is rejected by admission
with the shape-validation error `model is required`; the model-support
check (which skips empty models) is never reached, so the rejection is a
validation error, never a model-unsupported one. -/
theorem C5_empty_model_rejected (m : MediatorCfg) (req : ChatCompletionRequest)
    (h : req.model = "") :
    handleChatAdmission m req = some (MedError.validation "model is required") := by
  unfold handleChatAdmission validate
  rw [if_pos h]

/-- Instantiation of the C5 theorem at a one-message request. -/
theorem C5_empty_model_rejected_witness :
    handleChatAdmission ⟨"go-agent-1", "p", [], true⟩ ⟨"", [⟨"user", "hello", ""⟩], false, ""⟩ =
      some (MedError.validation "model is required") :=
  C5_empty_model_rejected ⟨"go-agent-1", "p", [], true⟩ ⟨"", [⟨"user", "hello", ""⟩], false, ""⟩ rfl

/-- C7 counterexample: for the key `"a=b"` (non-empty after trimming) the
encode/parse round trip returns `("a", "b=c")`, not the original pair —
the parser splits at the first `'='`. -/
theorem C7_txt_roundtrip_counterexample :
    trimSpace "a=b" ≠ "" ∧
    encodeTxtPair "a=b" "c" = some "a=b=c" ∧
    parseTxtRecord "a=b=c" = some ("a", "b=c") ∧
    (("a" : String), ("b=c" : String)) ≠ (("a=b" : String), ("c" : String)) := by
  refine ⟨by decide, rfl, by decide, by decide⟩

/-- C7 amended: for every pair whose key is non-empty, already trimmed and
free of `'='`, and whose value is already trimmed, announcing as `"k=v"`
and parsing at the first `'='` restores the pair exactly. -/
theorem C7_txt_roundtrip (k v : String) (hk : trimSpace k = k) (hne : k ≠ "")
    (heq : '=' ∉ k.data) (hv : trimSpace v = v) :
    encodeTxtPair k v = some (k ++ "=" ++ v) ∧
    parseTxtRecord (k ++ "=" ++ v) = some (k, v) := by
  constructor
  · unfold encodeTxtPair
    rw [hk, hv, if_neg hne]
  · unfold parseTxtRecord
    have hdata : (k ++ "=" ++ v).data = k.data ++ '=' :: v.data := by
      simp [String.data_append]
    rw [hdata, parseTxtList_append v.data heq]
    rfl

/-- Instantiation of the C7 theorem at the pair announced by the tool
server. -/
theorem C7_txt_roundtrip_witness :
    encodeTxtPair "role" "tool" = some ("role" ++ "=" ++ "tool") ∧
    parseTxtRecord ("role" ++ "=" ++ "tool") = some ("role", "tool") :=
  C7_txt_roundtrip "role" "tool" rfl (by decide) (by decide) rfl

/-- C8 counterexample: with TXT `scheme` equal to the non-empty string
`" "`, the constructed request URL uses `http`, not the raw TXT value. -/
theorem C8_scheme_counterexample :
    buildURL ⟨"i", "h", 1, "h:1", "tool", 0, some [("scheme", " ")]⟩ "/tools/list" =
      Except.ok "http://h:1/tools/list" ∧
    txtGet (some [("scheme", " ")]) "scheme" = " " ∧
    (" " : String) ≠ "" ∧
    usesScheme "http://h:1/tools/list" " " = false := by
  exact ⟨rfl, rfl, by decide, rfl⟩

/-- C8 amended: without a `url` override the request URL's scheme is the
trimmed TXT `scheme` value when that is non-empty and `http` otherwise;
with a non-blank parseable `url` the client keeps the parsed URL (scheme,
authority, query, fragment) and replaces only its path with the endpoint
path. -/
theorem C8_buildURL_scheme_and_override (srv : ServerInfo) (path : String) :
    (trimSpace (txtGet srv.text "url") = "" →
      ∀ out, buildURL srv path = Except.ok out →
        usesScheme out (if trimSpace (txtGet srv.text "scheme") = "" then "http"
          else trimSpace (txtGet srv.text "scheme")) = true) ∧
    (∀ u, trimSpace (txtGet srv.text "url") ≠ "" →
      parseURL (txtGet srv.text "url") = some u → leadingSlash path = true →
      buildURL srv path = Except.ok (urlString { u with path := path })) := by
  constructor
  · intro hurl out hout
    unfold buildURL at hout
    rw [if_neg (not_not_intro hurl)] at hout
    by_cases haddr : trimSpace (if srv.address = "" ∧
        (if srv.host = "" then srv.instanceName else srv.host) ≠ "" then
          joinHostPort (if srv.host = "" then srv.instanceName else srv.host) srv.port
        else srv.address) = ""
    · rw [if_pos haddr] at hout
      exact absurd hout (by simp)
    · rw [if_neg haddr] at hout
      simp only [Except.ok.injEq] at hout
      rw [← hout]
      unfold usesScheme
      simp only [String.data_append]
      rw [List.append_assoc]
      exact strBegins_append _ _
  · intro u hne hu hpath
    unfold buildURL
    rw [if_pos hne, hu, if_pos hpath]

/-- Instantiation of the C8 theorem: a `https` TXT scheme is used for the
constructed URL, and a TXT `url` override keeps authority and query while
the path is replaced by the endpoint path. -/
theorem C8_buildURL_scheme_and_override_witness :
    usesScheme "https://h:1/tools/list"
      (if trimSpace (txtGet (some [("scheme", "https")]) "scheme") = "" then "http"
        else trimSpace (txtGet (some [("scheme", "https")]) "scheme")) = true ∧
    buildURL ⟨"i", "h", 1, "h:1", "tool", 0, some [("url", "https://ex.com:9/base?q=1")]⟩
        "/tools/call" =
      Except.ok (urlString ⟨"https", "ex.com:9", "/tools/call", "q=1", ""⟩) := by
  constructor
  · exact (C8_buildURL_scheme_and_override
      ⟨"i", "h", 1, "h:1", "tool", 0, some [("scheme", "https")]⟩ "/tools/list").1
      rfl "https://h:1/tools/list" rfl
  · exact (C8_buildURL_scheme_and_override
      ⟨"i", "h", 1, "h:1", "tool", 0, some [("url", "https://ex.com:9/base?q=1")]⟩
      "/tools/call").2 ⟨"https", "ex.com:9", "/base", "q=1", ""⟩ (by decide) (by decide) rfl
